import Mathlib

/-!
Verification of the Jensen wake model in
src/src/jensen3d/JensenOpenMDAOconnect.py.

The numerical Python code is embedded over the real numbers.  Division,
trigonometric functions and square roots are the Mathlib real-valued
operations.  The one place where float semantics visibly differs from
real arithmetic is the quotient (Y[j] - Y[i]) / (X[j] - X[i] + z) at
line 49 when the denominator is exactly zero: numpy returns plus or
minus infinity (arctan of which is plus or minus pi/2) for a nonzero
numerator, and NaN for 0/0, and a NaN theta fails both comparisons at
line 53 so the matrix entry stays zero.  The embedding makes these two
branches explicit (wakeTheta, and the 0/0 guard inside
get_cosine_factor_original) instead of using the Lean convention
x / 0 = 0, which would disagree with the code there.
-/

namespace Jensen3D

open Real

noncomputable section

/-- The degree-to-radian conversion at line 24:
bound_angle * pi / 180. -/
def boundRad (bound_angle : ℝ) : ℝ :=
  bound_angle * Real.pi / 180

/-- The virtual wake-origin offset z computed at line 42:
z = relaxationFactor * R0 * sin(gamma) / sin(bound_angle_rad) with
gamma = pi/2 - bound_angle_rad and bound_angle_rad the bound angle
converted from degrees to radians (line 24). -/
def wakeZ (relaxationFactor R0 bound_angle : ℝ) : ℝ :=
  relaxationFactor * R0 * Real.sin (Real.pi / 2 - boundRad bound_angle) /
    Real.sin (boundRad bound_angle)

/-- The angle computed at line 49, theta = arctan(dy / den), with the
IEEE conventions of numpy at a zero denominator: the quotient is plus
or minus infinity when dy is nonzero, and arctan of that is plus or
minus pi/2.  The remaining 0/0 case produces NaN in the code; callers
guard that case separately (the value returned here for it is never
used by the embedding of the original function). -/
def wakeTheta (dy den : ℝ) : ℝ :=
  if den = 0 then
    (if 0 < dy then Real.pi / 2 else if dy < 0 then -(Real.pi / 2) else 0)
  else Real.arctan (dy / den)

/-- The angle of line 49 for the turbine pair (i, j):
theta = arctan((Y[j] - Y[i]) / (X[j] - X[i] + z)). -/
def pairTheta {n : ℕ} (X Y : Fin n → ℝ) (R0 bound_angle relaxationFactor : ℝ)
    (i j : Fin n) : ℝ :=
  wakeTheta (Y j - Y i) (X j - X i + wakeZ relaxationFactor R0 bound_angle)

/-- Lines 21 to 59 of the source: the cosine smoothing factor matrix.
The bound angle argument is in degrees and is converted to radians
first (line 24); q = pi / bound_angle_rad (line 27).  For each ordered
pair with X[i] < X[j] (line 39) the entry is (1 + cos(q * theta)) / 2
when -bound_angle_rad < theta < bound_angle_rad (lines 53 and 57) and
zero otherwise; entries for pairs with X[i] >= X[j] stay at their
initial value zero (line 26).  The extra 0/0 guard reflects the numpy
behaviour at line 49: when both the numerator and the denominator of
the quotient are zero the float quotient is NaN, arctan(NaN) is NaN,
and both comparisons at line 53 are false, so the entry stays zero. -/
def get_cosine_factor_original {n : ℕ} (X Y : Fin n → ℝ) (R0 : ℝ)
    (bound_angle : ℝ) (relaxationFactor : ℝ) (i j : Fin n) : ℝ :=
  if X i < X j then
    if X j - X i + wakeZ relaxationFactor R0 bound_angle = 0 ∧ Y j - Y i = 0 then 0
    else if -(boundRad bound_angle) < pairTheta X Y R0 bound_angle relaxationFactor i j ∧
        pairTheta X Y R0 bound_angle relaxationFactor i j < boundRad bound_angle then
      (1 + Real.cos ((Real.pi / boundRad bound_angle) *
        pairTheta X Y R0 bound_angle relaxationFactor i j)) / 2
    else 0
  else 0

/-- The parameter dictionary read by JensenCosine.solve_nonlinear
(lines 163 to 178).  Arrays have length n + 1 so that the reference
index 0 used for R0 at line 180 always exists, as the code requires.
The spread angle is in degrees.  radius_multiplier comes from the
component options and defaults to 1.0 (lines 133 to 136). -/
structure CosineParams (n : ℕ) where
  turbineXw : Fin (n + 1) → ℝ
  turbineYw : Fin (n + 1) → ℝ
  rotorDiameter : Fin (n + 1) → ℝ
  alpha : ℝ
  spread_angle : ℝ
  axialInduction : Fin (n + 1) → ℝ
  wind_speed : ℝ
  relaxationFactor : ℝ
  radius_multiplier : ℝ

/-- Rotor radius r = 0.5 * rotorDiameter (line 167). -/
def CosineParams.r {n : ℕ} (p : CosineParams n) (k : Fin (n + 1)) : ℝ :=
  0.5 * p.rotorDiameter k

/-- Reference radius passed to the factor function at line 180:
R0 = r[0] * radius_multiplier. -/
def CosineParams.R0 {n : ℕ} (p : CosineParams n) : ℝ :=
  p.r 0 * p.radius_multiplier

/-- The cosine factor matrix computed at lines 180 and 181. -/
def CosineParams.f_theta {n : ℕ} (p : CosineParams n) (i j : Fin (n + 1)) : ℝ :=
  get_cosine_factor_original p.turbineXw p.turbineYw p.R0 p.spread_angle
    p.relaxationFactor i j

/-- The per-pair loss entry written at lines 188 to 196: for
dx = X[i] - X[j] > 0 the code sets
loss[j] = 2 * a[j] * (f_theta[j][i] * r[j] / (r[j] + alpha * dx))^2
and then squares it again (line 196); otherwise loss[j] keeps the
value 0 set at line 186. -/
def cosinePairLoss {n : ℕ} (p : CosineParams n) (i j : Fin (n + 1)) : ℝ :=
  if 0 < p.turbineXw i - p.turbineXw j then
    (2 * p.axialInduction j *
      (p.f_theta j i * p.r j /
        (p.r j + p.alpha * (p.turbineXw i - p.turbineXw j))) ^ 2) ^ 2
  else 0

/-- totalLoss at line 198: square root of the sum of the loss array. -/
def cosineTotalLoss {n : ℕ} (p : CosineParams n) (i : Fin (n + 1)) : ℝ :=
  Real.sqrt (∑ j, cosinePairLoss p i j)

/-- The hub velocity written at line 199:
hubVelocity[i] = (1 - totalLoss) * windSpeed.  This is the i-th entry
of the output of JensenCosine.solve_nonlinear. -/
def JensenCosine_solve {n : ℕ} (p : CosineParams n) (i : Fin (n + 1)) : ℝ :=
  (1 - cosineTotalLoss p i) * p.wind_speed

/-- Lines 246 to 272, JensenCosineFortran.solve_nonlinear, with the
compiled routine left abstract.  Modelled from the spec: the body of
the compiled module named at line 268 is not under src, so the routine
is taken as an arbitrary function jensenwake of exactly the arguments
its call site passes, namely turbineXw, turbineYw, rotorDiameter and
relaxationFactor.  The caller then writes
hubVelocity = (1 - loss) * windSpeed (line 270).  Note the cosine
factor matrix computed at lines 264 and 265 is never passed to the
routine, and alpha, axialInduction and the spread angle are not passed
either. -/
def JensenCosineFortran_solve {n : ℕ}
    (jensenwake : (Fin (n + 1) → ℝ) → (Fin (n + 1) → ℝ) → (Fin (n + 1) → ℝ) → ℝ →
      Fin (n + 1) → ℝ)
    (p : CosineParams n) (i : Fin (n + 1)) : ℝ :=
  (1 - jensenwake p.turbineXw p.turbineYw p.rotorDiameter p.relaxationFactor i) *
    p.wind_speed

/-- Modelled from the spec: the requirement that the CosineFortran
variant is numerically equivalent to the Cosine variant, for some
choice of the compiled routine consistent with its call interface. -/
def fortranEquivCosine (n : ℕ) : Prop :=
  ∃ jensenwake, ∀ (p : CosineParams n) (i : Fin (n + 1)),
    JensenCosineFortran_solve jensenwake p i = JensenCosine_solve p i

/-- Lines 281 to 284: reading the variant tag from model_options.  A
missing dictionary or a missing variant key both raise and are caught,
giving the default tag Tophat.  The argument models the lookup result:
none when the dictionary is None or lacks the key. -/
def resolveVariant : Option String → String
  | none => "Tophat"
  | some v => v

/-- Lines 287 to 320: the dispatch chain of Jensen.__init__, returning
the name of the component class added to the group, or none when no
branch matches and nothing is added.  The comparisons in the source
use the Python identity test on string literals, which on interned
literals coincides with string equality; distinct spellings are
distinct strings. -/
def jensenDispatch (variant : String) : Option String :=
  if variant = "TopHat" then some "JensenTopHat"
  else if variant = "Cosine" then some "JensenCosine"
  else if variant = "CosineFortran" then some "JensenCosineFortran"
  else if variant = "CosineNoOverlap_1R" ∨ variant = "CosineNoOverlap_2R" then
    some "effectiveVelocityCosineNoOverlap"
  else if variant = "Conference" then some "effectiveVelocityConference"
  else if variant = "CosineYaw_1R" ∨ variant = "CosineYaw_2R" then
    some "JensenCosineYaw"
  else if variant = "CosineYawIntegral" then some "JensenCosineYawIntegral"
  else if variant = "CosineYaw" then some "JensenCosineYaw"
  else none

/-- A one-turbine parameter set used to exercise the no-upstream
theorem at a concrete input. -/
def singleParams : CosineParams 0 :=
  ⟨![0], ![0], ![2], 1, 45, ![1 / 3], 8, 1, 1⟩

/-- A two-turbine parameter set with a very large axial induction,
driving the total loss above one. -/
def denseParams : CosineParams 1 :=
  ⟨![0, 1], ![0, 0], ![2, 2], 1, 45, ![50, 50], 1, 1, 1⟩

/-- Two parameter sets agreeing on every argument the compiled routine
receives (positions, rotor diameters, relaxation factor) and on the
wind speed, but with wake expansion alpha equal to zero. -/
def fortranParamsA : CosineParams 1 :=
  ⟨![0, 1], ![0, 0], ![2, 2], 0, 45, ![1 / 2, 1 / 2], 1, 1, 1⟩

/-- The same parameter set with wake expansion alpha equal to one. -/
def fortranParamsB : CosineParams 1 :=
  ⟨![0, 1], ![0, 0], ![2, 2], 1, 45, ![1 / 2, 1 / 2], 1, 1, 1⟩

end

/-! Theorems. -/

/-- Every entry of the cosine factor matrix is nonnegative. -/
theorem get_cosine_factor_nonneg {n : ℕ} (X Y : Fin n → ℝ) (R0 ba ξ : ℝ)
    (i j : Fin n) : 0 ≤ get_cosine_factor_original X Y R0 ba ξ i j := by
  unfold get_cosine_factor_original
  split_ifs with h1 h2 h3
  · exact le_refl 0
  · have := Real.neg_one_le_cos
      ((Real.pi / boundRad ba) * pairTheta X Y R0 ba ξ i j)
    linarith
  · exact le_refl 0
  · exact le_refl 0

/-- Every entry of the cosine factor matrix is at most one. -/
theorem get_cosine_factor_le_one {n : ℕ} (X Y : Fin n → ℝ) (R0 ba ξ : ℝ)
    (i j : Fin n) : get_cosine_factor_original X Y R0 ba ξ i j ≤ 1 := by
  unfold get_cosine_factor_original
  split_ifs with h1 h2 h3
  · exact zero_le_one
  · have := Real.cos_le_one
      ((Real.pi / boundRad ba) * pairTheta X Y R0 ba ξ i j)
    linarith
  · exact zero_le_one
  · exact zero_le_one

/-- C3: every entry of the cosine factor matrix lies in the interval
from 0 to 1; the entry is zero whenever X[i] is at least X[j]; and a
positive entry forces X[i] < X[j] together with the angle theta of the
pair lying strictly inside the bound angle (in radians). -/
theorem C3_cosine_factor_invariants {n : ℕ} (X Y : Fin n → ℝ) (R0 ba ξ : ℝ)
    (i j : Fin n) :
    (0 ≤ get_cosine_factor_original X Y R0 ba ξ i j ∧
      get_cosine_factor_original X Y R0 ba ξ i j ≤ 1) ∧
    (X j ≤ X i → get_cosine_factor_original X Y R0 ba ξ i j = 0) ∧
    (0 < get_cosine_factor_original X Y R0 ba ξ i j →
      X i < X j ∧ |pairTheta X Y R0 ba ξ i j| < boundRad ba) := by
  refine ⟨⟨get_cosine_factor_nonneg X Y R0 ba ξ i j,
    get_cosine_factor_le_one X Y R0 ba ξ i j⟩, ?_, ?_⟩
  · intro h
    unfold get_cosine_factor_original
    rw [if_neg (not_lt.mpr h)]
  · intro h
    unfold get_cosine_factor_original at h
    by_cases hx : X i < X j
    · refine ⟨hx, ?_⟩
      rw [if_pos hx] at h
      by_cases hg : X j - X i + wakeZ ξ R0 ba = 0 ∧ Y j - Y i = 0
      · rw [if_pos hg] at h
        exact absurd h (lt_irrefl 0)
      · rw [if_neg hg] at h
        by_cases hb : -(boundRad ba) < pairTheta X Y R0 ba ξ i j ∧
            pairTheta X Y R0 ba ξ i j < boundRad ba
        · exact abs_lt.mpr hb
        · rw [if_neg hb] at h
          exact absurd h (lt_irrefl 0)
    · rw [if_neg hx] at h
      exact absurd h (lt_irrefl 0)

/-- C3 witness: the invariants instantiated at a concrete two-turbine
input. -/
theorem C3_witness :
    (0 ≤ get_cosine_factor_original (![0, 1] : Fin 2 → ℝ) ![0, 0] 1 45 1 0 1 ∧
      get_cosine_factor_original (![0, 1] : Fin 2 → ℝ) ![0, 0] 1 45 1 0 1 ≤ 1) ∧
    ((![0, 1] : Fin 2 → ℝ) 1 ≤ (![0, 1] : Fin 2 → ℝ) 0 →
      get_cosine_factor_original (![0, 1] : Fin 2 → ℝ) ![0, 0] 1 45 1 0 1 = 0) ∧
    (0 < get_cosine_factor_original (![0, 1] : Fin 2 → ℝ) ![0, 0] 1 45 1 0 1 →
      (![0, 1] : Fin 2 → ℝ) 0 < (![0, 1] : Fin 2 → ℝ) 1 ∧
        |pairTheta (![0, 1] : Fin 2 → ℝ) ![0, 0] 1 45 1 0 1| < boundRad 45) :=
  C3_cosine_factor_invariants ![0, 1] ![0, 0] 1 45 1 0 1

/-- C1: the Cosine variant hub velocity for target turbine i equals
(1 - sqrt(sum over j of loss_j)) * windSpeed, where for every turbine
j with dx = X[i] - X[j] > 0 the contribution is
(2 * a[j] * (f[j][i] * r[j] / (r[j] + alpha * dx))^2)^2 with
r[j] = rotorDiameter[j] / 2, the per-pair deficit squared once to form
the fraction and squared again before summation, and turbines with
dx <= 0 contribute zero. -/
theorem C1_cosine_hub_velocity_formula {n : ℕ} (p : CosineParams n)
    (i : Fin (n + 1)) :
    JensenCosine_solve p i =
      (1 - Real.sqrt (∑ j, if 0 < p.turbineXw i - p.turbineXw j then
          (2 * p.axialInduction j *
            (p.f_theta j i * (p.rotorDiameter j / 2) /
              (p.rotorDiameter j / 2 +
                p.alpha * (p.turbineXw i - p.turbineXw j))) ^ 2) ^ 2
        else 0)) * p.wind_speed := by
  have hterm : ∀ j, cosinePairLoss p i j =
      if 0 < p.turbineXw i - p.turbineXw j then
        (2 * p.axialInduction j *
          (p.f_theta j i * (p.rotorDiameter j / 2) /
            (p.rotorDiameter j / 2 +
              p.alpha * (p.turbineXw i - p.turbineXw j))) ^ 2) ^ 2
      else 0 := by
    intro j
    unfold cosinePairLoss CosineParams.r
    split_ifs with h
    · ring_nf
    · rfl
  unfold JensenCosine_solve cosineTotalLoss
  rw [Finset.sum_congr rfl fun j _ => hterm j]

/-- C4: a turbine with no upstream neighbor has total loss zero and
its output velocity is exactly the freestream wind speed. -/
theorem C4_no_upstream_freestream {n : ℕ} (p : CosineParams n)
    (i : Fin (n + 1)) (h : ∀ j, ¬ p.turbineXw j < p.turbineXw i) :
    cosineTotalLoss p i = 0 ∧ JensenCosine_solve p i = p.wind_speed := by
  have hl : ∀ j, cosinePairLoss p i j = 0 := by
    intro j
    unfold cosinePairLoss
    rw [if_neg]
    intro hdx
    exact h j (sub_pos.mp hdx)
  have ht : cosineTotalLoss p i = 0 := by
    unfold cosineTotalLoss
    rw [Finset.sum_eq_zero fun j _ => hl j, Real.sqrt_zero]
  refine ⟨ht, ?_⟩
  unfold JensenCosine_solve
  rw [ht]
  ring

/-- C4 witness: a single isolated turbine has no upstream neighbor and
outputs the freestream speed. -/
theorem C4_witness :
    (∀ j : Fin 1, ¬ singleParams.turbineXw j < singleParams.turbineXw 0) ∧
    (cosineTotalLoss singleParams 0 = 0 ∧
      JensenCosine_solve singleParams 0 = singleParams.wind_speed) := by
  have h : ∀ j : Fin 1, ¬ singleParams.turbineXw j < singleParams.turbineXw 0 := by
    intro j
    have hj : j = 0 := Subsingleton.elim j 0
    rw [hj]
    exact lt_irrefl _
  exact ⟨h, C4_no_upstream_freestream singleParams 0 h⟩

/-- C2: for every ordered pair the cosine factor entry is determined,
under the side condition that the denominator X[j] - X[i] + z is
nonzero (so the quotient in the theta formula is a defined real
number), by: z = relaxationFactor * R0 * sin(pi/2 - boundAngle) /
sin(boundAngle) with boundAngle the degree input converted to radians,
theta = arctan((Y[j] - Y[i]) / (X[j] - X[i] + z)), and the entry is
(1 + cos((pi / boundAngle) * theta)) / 2 exactly when X[i] < X[j] and
the absolute value of theta is below boundAngle, every other entry
(including pairs with X[i] >= X[j] and the diagonal) being zero. -/
theorem C2_cosine_factor_formula {n : ℕ} (X Y : Fin n → ℝ) (R0 ba ξ : ℝ)
    (i j : Fin n)
    (hden : X j - X i + ξ * R0 * Real.sin (Real.pi / 2 - boundRad ba) /
      Real.sin (boundRad ba) ≠ 0) :
    get_cosine_factor_original X Y R0 ba ξ i j =
      if X i < X j ∧
          |Real.arctan ((Y j - Y i) / (X j - X i +
            ξ * R0 * Real.sin (Real.pi / 2 - boundRad ba) /
              Real.sin (boundRad ba)))| < boundRad ba then
        (1 + Real.cos ((Real.pi / boundRad ba) *
          Real.arctan ((Y j - Y i) / (X j - X i +
            ξ * R0 * Real.sin (Real.pi / 2 - boundRad ba) /
              Real.sin (boundRad ba))))) / 2
      else 0 := by
  have hz : ξ * R0 * Real.sin (Real.pi / 2 - boundRad ba) /
      Real.sin (boundRad ba) = wakeZ ξ R0 ba := rfl
  rw [hz] at hden ⊢
  have htheta : pairTheta X Y R0 ba ξ i j =
      Real.arctan ((Y j - Y i) / (X j - X i + wakeZ ξ R0 ba)) := by
    unfold pairTheta wakeTheta
    rw [if_neg hden]
  unfold get_cosine_factor_original
  rw [htheta]
  by_cases hx : X i < X j
  · have hguard : ¬ (X j - X i + wakeZ ξ R0 ba = 0 ∧ Y j - Y i = 0) :=
      fun hc => hden hc.1
    rw [if_pos hx, if_neg hguard]
    by_cases hb : |Real.arctan ((Y j - Y i) /
        (X j - X i + wakeZ ξ R0 ba))| < boundRad ba
    · rw [if_pos (abs_lt.mp hb), if_pos ⟨hx, hb⟩]
    · rw [if_neg (fun hc => hb (abs_lt.mpr hc)), if_neg (fun hc => hb hc.2)]
  · rw [if_neg hx, if_neg (fun hc => hx hc.1)]

/-- C2 witness: the characterization instantiated at a two-turbine
farm with unit spacing, bound angle 45 degrees and unit relaxation
factor, where the denominator equals 2. -/
theorem C2_witness :
    ((![0, 1] : Fin 2 → ℝ) 1 - (![0, 1] : Fin 2 → ℝ) 0 +
      1 * 1 * Real.sin (Real.pi / 2 - boundRad 45) /
        Real.sin (boundRad 45) ≠ 0) ∧
    (get_cosine_factor_original (![0, 1] : Fin 2 → ℝ) ![0, 0] 1 45 1 0 1 =
      if (![0, 1] : Fin 2 → ℝ) 0 < (![0, 1] : Fin 2 → ℝ) 1 ∧
          |Real.arctan (((![0, 0] : Fin 2 → ℝ) 1 - (![0, 0] : Fin 2 → ℝ) 0) /
            ((![0, 1] : Fin 2 → ℝ) 1 - (![0, 1] : Fin 2 → ℝ) 0 +
              1 * 1 * Real.sin (Real.pi / 2 - boundRad 45) /
                Real.sin (boundRad 45)))| < boundRad 45 then
        (1 + Real.cos ((Real.pi / boundRad 45) *
          Real.arctan (((![0, 0] : Fin 2 → ℝ) 1 - (![0, 0] : Fin 2 → ℝ) 0) /
            ((![0, 1] : Fin 2 → ℝ) 1 - (![0, 1] : Fin 2 → ℝ) 0 +
              1 * 1 * Real.sin (Real.pi / 2 - boundRad 45) /
                Real.sin (boundRad 45))))) / 2
      else 0) := by
  have h45 : boundRad 45 = Real.pi / 4 := by
    unfold boundRad
    ring
  have hgam : Real.pi / 2 - boundRad 45 = boundRad 45 := by
    rw [h45]
    ring
  have hspos : 0 < Real.sin (boundRad 45) := by
    rw [h45]
    apply Real.sin_pos_of_pos_of_lt_pi
    · positivity
    · have := Real.pi_pos
      linarith
  have hden : (![0, 1] : Fin 2 → ℝ) 1 - (![0, 1] : Fin 2 → ℝ) 0 +
      1 * 1 * Real.sin (Real.pi / 2 - boundRad 45) /
        Real.sin (boundRad 45) ≠ 0 := by
    rw [hgam, one_mul, one_mul, div_self (ne_of_gt hspos)]
    norm_num
  exact ⟨hden, C2_cosine_factor_formula ![0, 1] ![0, 0] 1 45 1 0 1 hden⟩

/-- The bound angle of 45 degrees converts to pi/4 radians. -/
theorem boundRad_45 : boundRad 45 = Real.pi / 4 := by
  unfold boundRad
  ring

/-- The sine of the 45 degree bound angle is positive. -/
theorem sin_boundRad_45_pos : 0 < Real.sin (boundRad 45) := by
  rw [boundRad_45]
  apply Real.sin_pos_of_pos_of_lt_pi
  · positivity
  · have := Real.pi_pos
    linarith

/-- The complementary angle gamma equals the bound angle itself at 45
degrees. -/
theorem gamma_45 : Real.pi / 2 - boundRad 45 = boundRad 45 := by
  rw [boundRad_45]
  ring

/-- At 45 degrees, unit radius and unit relaxation factor the wake
origin offset is one. -/
theorem wakeZ_one_45 : wakeZ 1 1 45 = 1 := by
  unfold wakeZ
  rw [gamma_45, div_eq_iff (ne_of_gt sin_boundRad_45_pos)]
  ring

/-- At 45 degrees, unit radius and relaxation factor minus one the
wake origin offset is minus one. -/
theorem wakeZ_neg_one_45 : wakeZ (-1) 1 45 = -1 := by
  unfold wakeZ
  rw [gamma_45, div_eq_iff (ne_of_gt sin_boundRad_45_pos)]
  ring

/-- The radian bound angle is positive for a positive degree input. -/
theorem boundRad_pos {ba : ℝ} (hba : 0 < ba) : 0 < boundRad ba := by
  unfold boundRad
  exact div_pos (mul_pos hba Real.pi_pos) (by norm_num)

/-- The radian bound angle is below pi/2 for a degree input below
90. -/
theorem boundRad_lt_pi_div_two {ba : ℝ} (hba : ba < 90) :
    boundRad ba < Real.pi / 2 := by
  unfold boundRad
  have h1 : ba * Real.pi < 90 * Real.pi :=
    mul_lt_mul_of_pos_right hba Real.pi_pos
  linarith

/-- C7: for an upstream pair whose denominator X[j] - X[i] + z is
exactly zero the factor computation still yields a defined result: the
entry is zero, and when the numerator Y[j] - Y[i] is nonzero the angle
theta takes the boundary limit value of absolute size pi/2, which lies
outside any bound angle between 0 and 90 degrees.  The evaluation is a
total function here; no case aborts. -/
theorem C7_degenerate_denominator {n : ℕ} (X Y : Fin n → ℝ) (R0 ba ξ : ℝ)
    (i j : Fin n) (hx : X i < X j) (hden : X j - X i + wakeZ ξ R0 ba = 0)
    (hba0 : 0 < ba) (hba90 : ba < 90) :
    get_cosine_factor_original X Y R0 ba ξ i j = 0 ∧
    (Y j - Y i ≠ 0 → |pairTheta X Y R0 ba ξ i j| = Real.pi / 2) := by
  have hblt : boundRad ba < Real.pi / 2 := boundRad_lt_pi_div_two hba90
  have hth : pairTheta X Y R0 ba ξ i j =
      (if 0 < Y j - Y i then Real.pi / 2
        else if Y j - Y i < 0 then -(Real.pi / 2) else 0) := by
    unfold pairTheta wakeTheta
    rw [if_pos hden]
  constructor
  · unfold get_cosine_factor_original
    rw [if_pos hx]
    by_cases hdy : Y j - Y i = 0
    · rw [if_pos ⟨hden, hdy⟩]
    · rw [if_neg (fun hc => hdy hc.2)]
      rcases lt_or_gt_of_ne hdy with hneg | hpos
      · rw [hth, if_neg (by linarith : ¬ 0 < Y j - Y i), if_pos hneg]
        rw [if_neg]
        intro hc
        linarith [hc.1]
      · rw [hth, if_pos hpos]
        rw [if_neg]
        intro hc
        linarith [hc.2]
  · intro hdy
    rw [hth]
    rcases lt_or_gt_of_ne hdy with hneg | hpos
    · rw [if_neg (by linarith : ¬ 0 < Y j - Y i), if_pos hneg, abs_neg,
        abs_of_pos (by linarith [Real.pi_pos])]
    · rw [if_pos hpos, abs_of_pos (by linarith [Real.pi_pos])]

/-- C7 witness: a concrete upstream pair with relaxation factor minus
one makes the denominator exactly zero; the factor entry is zero and
theta has absolute value pi/2. -/
theorem C7_witness :
    ((![0, 1] : Fin 2 → ℝ) 0 < (![0, 1] : Fin 2 → ℝ) 1 ∧
      (![0, 1] : Fin 2 → ℝ) 1 - (![0, 1] : Fin 2 → ℝ) 0 + wakeZ (-1) 1 45 = 0 ∧
      (0 : ℝ) < 45 ∧ (45 : ℝ) < 90) ∧
    (get_cosine_factor_original (![0, 1] : Fin 2 → ℝ) ![0, 3] 1 45 (-1) 0 1 = 0 ∧
      ((![0, 3] : Fin 2 → ℝ) 1 - (![0, 3] : Fin 2 → ℝ) 0 ≠ 0 →
        |pairTheta (![0, 1] : Fin 2 → ℝ) ![0, 3] 1 45 (-1) 0 1| = Real.pi / 2)) := by
  have hx : (![0, 1] : Fin 2 → ℝ) 0 < (![0, 1] : Fin 2 → ℝ) 1 := by
    norm_num
  have hden : (![0, 1] : Fin 2 → ℝ) 1 - (![0, 1] : Fin 2 → ℝ) 0 +
      wakeZ (-1) 1 45 = 0 := by
    rw [wakeZ_neg_one_45]
    norm_num
  exact ⟨⟨hx, hden, by norm_num, by norm_num⟩,
    C7_degenerate_denominator ![0, 1] ![0, 3] 1 45 (-1) 0 1 hx hden
      (by norm_num) (by norm_num)⟩

/-- C8 counterexample: at a bound angle of 90 degrees (pi/2 radians,
which the claim says must fail with a DomainError before any geometry
computation) the factor function performs the full geometry
computation and returns the defined entry 1 for an aligned upstream
pair; no validation failure exists. -/
theorem C8_counterexample :
    get_cosine_factor_original (![0, 1] : Fin 2 → ℝ) ![0, 0] 1 90 1 0 1 = 1 := by
  have h90 : boundRad 90 = Real.pi / 2 := by
    unfold boundRad
    ring
  have hz : wakeZ 1 1 90 = 0 := by
    unfold wakeZ
    rw [show Real.pi / 2 - boundRad 90 = 0 by rw [h90]; ring, Real.sin_zero]
    simp
  have hth : pairTheta (![0, 1] : Fin 2 → ℝ) ![0, 0] 1 90 1 0 1 = 0 := by
    unfold pairTheta wakeTheta
    rw [hz]
    norm_num [Real.arctan_zero]
  have hguard : ¬ ((![0, 1] : Fin 2 → ℝ) 1 - (![0, 1] : Fin 2 → ℝ) 0 +
      wakeZ 1 1 90 = 0 ∧ (![0, 0] : Fin 2 → ℝ) 1 - (![0, 0] : Fin 2 → ℝ) 0 = 0) := by
    rw [hz]
    intro hc
    norm_num at hc
  unfold get_cosine_factor_original
  rw [if_pos (by norm_num : (![0, 1] : Fin 2 → ℝ) 0 < (![0, 1] : Fin 2 → ℝ) 1)]
  rw [if_neg hguard, hth]
  rw [if_pos ⟨by rw [h90]; linarith [Real.pi_pos], by rw [h90]; linarith [Real.pi_pos]⟩]
  rw [mul_zero, Real.cos_zero]
  norm_num

/-- C8 amended: the factor function performs no input validation and
never fails: for any negative bound angle the pair loop simply
produces an all zero matrix (the membership test is unsatisfiable),
and for bound angles of 90 degrees or more the geometry is computed
and entries are assigned from the formulas; no DomainError is ever
raised before or during the geometry computation. -/
theorem C8_amended_no_validation {n : ℕ} (X Y : Fin n → ℝ) (R0 ba ξ : ℝ)
    (i j : Fin n) (hba : ba < 0) :
    get_cosine_factor_original X Y R0 ba ξ i j = 0 := by
  have hneg : boundRad ba < 0 := by
    unfold boundRad
    exact div_neg_of_neg_of_pos (mul_neg_of_neg_of_pos hba Real.pi_pos)
      (by norm_num)
  unfold get_cosine_factor_original
  split_ifs with h1 h2 h3
  · rfl
  · exfalso
    linarith [h3.1, h3.2]
  · rfl
  · rfl

/-- C8 amended witness: a concrete negative bound angle yields the
zero entry without any failure. -/
theorem C8_amended_witness :
    ((-10 : ℝ) < 0) ∧
    get_cosine_factor_original (![0, 1] : Fin 2 → ℝ) ![0, 0] 1 (-10) 1 0 1 = 0 :=
  ⟨by norm_num,
    C8_amended_no_validation ![0, 1] ![0, 0] 1 (-10) 1 0 1 (by norm_num)⟩

/-- An aligned upstream pair at 45 degrees with unit spacing, unit
reference radius and unit relaxation factor has cosine factor one. -/
theorem gcfo_aligned_45 :
    get_cosine_factor_original (![0, 1] : Fin 2 → ℝ) ![0, 0] 1 45 1 0 1 = 1 := by
  have hth : pairTheta (![0, 1] : Fin 2 → ℝ) ![0, 0] 1 45 1 0 1 = 0 := by
    unfold pairTheta wakeTheta
    rw [wakeZ_one_45]
    norm_num [Real.arctan_zero]
  have hguard : ¬ ((![0, 1] : Fin 2 → ℝ) 1 - (![0, 1] : Fin 2 → ℝ) 0 +
      wakeZ 1 1 45 = 0 ∧ (![0, 0] : Fin 2 → ℝ) 1 - (![0, 0] : Fin 2 → ℝ) 0 = 0) := by
    rw [wakeZ_one_45]
    intro hc
    norm_num at hc
  have hbpos : 0 < boundRad 45 := boundRad_pos (by norm_num)
  unfold get_cosine_factor_original
  rw [if_pos (by norm_num : (![0, 1] : Fin 2 → ℝ) 0 < (![0, 1] : Fin 2 → ℝ) 1)]
  rw [if_neg hguard, hth, if_pos ⟨by linarith, hbpos⟩]
  rw [mul_zero, Real.cos_zero]
  norm_num

/-- C6: the total loss is never clamped: whenever it exceeds one and
the wind speed is positive, the hub velocity surfaced in the output is
the negative value (1 - totalLoss) * windSpeed, not corrected and not
an error. -/
theorem C6_no_clamp {n : ℕ} (p : CosineParams n) (i : Fin (n + 1))
    (h1 : 1 < cosineTotalLoss p i) (hV : 0 < p.wind_speed) :
    JensenCosine_solve p i = (1 - cosineTotalLoss p i) * p.wind_speed ∧
    JensenCosine_solve p i < 0 := by
  refine ⟨rfl, ?_⟩
  unfold JensenCosine_solve
  exact mul_neg_of_neg_of_pos (by linarith) hV

/-- C6 witness: with axial induction 50 on both turbines the
downstream total loss evaluates to 25 and the emitted hub velocity is
negative. -/
theorem C6_witness :
    (1 < cosineTotalLoss denseParams 1 ∧ 0 < denseParams.wind_speed) ∧
    (JensenCosine_solve denseParams 1 =
      (1 - cosineTotalLoss denseParams 1) * denseParams.wind_speed ∧
      JensenCosine_solve denseParams 1 < 0) := by
  have hr0 : denseParams.R0 = 1 := by
    show 0.5 * (![2, 2] : Fin 2 → ℝ) 0 * 1 = 1
    norm_num
  have hf : denseParams.f_theta 0 1 = 1 := by
    unfold CosineParams.f_theta
    show get_cosine_factor_original (![0, 1] : Fin 2 → ℝ) ![0, 0]
      denseParams.R0 45 1 0 1 = 1
    rw [hr0]
    exact gcfo_aligned_45
  have h0 : cosinePairLoss denseParams 1 0 = 625 := by
    unfold cosinePairLoss
    rw [hf]
    simp only [denseParams, CosineParams.r, Matrix.cons_val_zero,
      Matrix.cons_val_one, Matrix.head_cons]
    norm_num
  have h1l : cosinePairLoss denseParams 1 1 = 0 := by
    have hnd : ¬ (0 : ℝ) < denseParams.turbineXw 1 - denseParams.turbineXw 1 := by
      simp
    unfold cosinePairLoss
    rw [if_neg hnd]
  have htl : cosineTotalLoss denseParams 1 = 25 := by
    unfold cosineTotalLoss
    rw [Fin.sum_univ_two, h0, h1l]
    rw [show (625 : ℝ) + 0 = 25 ^ 2 by norm_num,
      Real.sqrt_sq (by norm_num : (0 : ℝ) ≤ 25)]
  have h1 : 1 < cosineTotalLoss denseParams 1 := by
    rw [htl]
    norm_num
  have hV : 0 < denseParams.wind_speed := by
    show (0 : ℝ) < 1
    norm_num
  exact ⟨⟨h1, hV⟩, C6_no_clamp denseParams 1 h1 hV⟩

/-- C9: no choice of the compiled routine can make the CosineFortran
variant numerically equivalent to the Cosine variant on every input:
the routine receives only the positions, rotor diameters and the
relaxation factor, while the Cosine hub velocity also depends on the
wake expansion coefficient alpha, so two inputs differing only in
alpha get the same Fortran output but different Cosine outputs. -/
theorem C9_fortran_not_equivalent : ¬ fortranEquivCosine 1 := by
  rintro ⟨jw, hjw⟩
  have hrA : fortranParamsA.R0 = 1 := by
    show 0.5 * (![2, 2] : Fin 2 → ℝ) 0 * 1 = 1
    norm_num
  have hfA : fortranParamsA.f_theta 0 1 = 1 := by
    unfold CosineParams.f_theta
    show get_cosine_factor_original (![0, 1] : Fin 2 → ℝ) ![0, 0]
      fortranParamsA.R0 45 1 0 1 = 1
    rw [hrA]
    exact gcfo_aligned_45
  have h0A : cosinePairLoss fortranParamsA 1 0 = 1 := by
    unfold cosinePairLoss
    rw [hfA]
    simp only [fortranParamsA, CosineParams.r, Matrix.cons_val_zero,
      Matrix.cons_val_one, Matrix.head_cons]
    norm_num
  have h1A : cosinePairLoss fortranParamsA 1 1 = 0 := by
    have hnd : ¬ (0 : ℝ) < fortranParamsA.turbineXw 1 - fortranParamsA.turbineXw 1 := by
      simp
    unfold cosinePairLoss
    rw [if_neg hnd]
  have htlA : cosineTotalLoss fortranParamsA 1 = 1 := by
    unfold cosineTotalLoss
    rw [Fin.sum_univ_two, h0A, h1A]
    rw [show (1 : ℝ) + 0 = 1 by norm_num, Real.sqrt_one]
  have hubA : JensenCosine_solve fortranParamsA 1 = 0 := by
    unfold JensenCosine_solve
    rw [htlA]
    ring
  have hrB : fortranParamsB.R0 = 1 := by
    show 0.5 * (![2, 2] : Fin 2 → ℝ) 0 * 1 = 1
    norm_num
  have hfB : fortranParamsB.f_theta 0 1 = 1 := by
    unfold CosineParams.f_theta
    show get_cosine_factor_original (![0, 1] : Fin 2 → ℝ) ![0, 0]
      fortranParamsB.R0 45 1 0 1 = 1
    rw [hrB]
    exact gcfo_aligned_45
  have h0B : cosinePairLoss fortranParamsB 1 0 = 1 / 16 := by
    unfold cosinePairLoss
    rw [hfB]
    simp only [fortranParamsB, CosineParams.r, Matrix.cons_val_zero,
      Matrix.cons_val_one, Matrix.head_cons]
    norm_num
  have h1B : cosinePairLoss fortranParamsB 1 1 = 0 := by
    have hnd : ¬ (0 : ℝ) < fortranParamsB.turbineXw 1 - fortranParamsB.turbineXw 1 := by
      simp
    unfold cosinePairLoss
    rw [if_neg hnd]
  have htlB : cosineTotalLoss fortranParamsB 1 = 1 / 4 := by
    unfold cosineTotalLoss
    rw [Fin.sum_univ_two, h0B, h1B]
    rw [show (1 : ℝ) / 16 + 0 = (1 / 4) ^ 2 by norm_num,
      Real.sqrt_sq (by norm_num : (0 : ℝ) ≤ 1 / 4)]
  have hubB : JensenCosine_solve fortranParamsB 1 = 3 / 4 := by
    unfold JensenCosine_solve
    rw [htlB]
    show (1 - (1 : ℝ) / 4) * 1 = 3 / 4
    norm_num
  have heq : JensenCosineFortran_solve jw fortranParamsA 1 =
      JensenCosineFortran_solve jw fortranParamsB 1 := rfl
  rw [hjw fortranParamsA 1, hjw fortranParamsB 1, hubA, hubB] at heq
  norm_num at heq

/-- The absolute value of the arctangent is the arctangent of the
absolute value. -/
theorem abs_arctan_eq (x : ℝ) : |Real.arctan x| = Real.arctan |x| := by
  rcases le_or_lt 0 x with h | h
  · have hnn : 0 ≤ Real.arctan x := by
      have := Real.arctan_strictMono.monotone h
      rwa [Real.arctan_zero] at this
    rw [abs_of_nonneg h, abs_of_nonneg hnn]
  · have hne : Real.arctan x < 0 := by
      have := Real.arctan_strictMono h
      rwa [Real.arctan_zero] at this
    rw [abs_of_neg h, abs_of_neg hne, ← Real.arctan_neg]

/-- C5 counterexample: for a pair with equal y positions the angle
theta is zero at every relaxation factor, so raising the relaxation
factor from 1 to 2 does not strictly decrease its absolute value. -/
theorem C5_counterexample :
    ¬ (|pairTheta (![0, 1] : Fin 2 → ℝ) ![0, 0] 1 45 2 0 1| <
        |pairTheta (![0, 1] : Fin 2 → ℝ) ![0, 0] 1 45 1 0 1|) := by
  have hz : ∀ ξ : ℝ, pairTheta (![0, 1] : Fin 2 → ℝ) ![0, 0] 1 45 ξ 0 1 = 0 := by
    intro ξ
    unfold pairTheta wakeTheta
    have hdy : (![0, 0] : Fin 2 → ℝ) 1 - (![0, 0] : Fin 2 → ℝ) 0 = 0 := by
      norm_num
    rw [hdy]
    split_ifs with h1 h2
    · exact absurd h2 (lt_irrefl 0)
    · rfl
    · rw [zero_div, Real.arctan_zero]
  rw [hz 2, hz 1]
  simp

/-- C5 amended: holding the bound angle fixed in the open interval
from 0 to 90 degrees, with a positive reference radius, for a fixed
pair with X[i] < X[j] and relaxation factors 0 <= xi1 < xi2, the
offset z strictly increases, the absolute value of theta weakly
decreases, the decrease being strict whenever Y[j] differs from Y[i],
and the cosine factor entry never decreases. -/
theorem C5_amended_monotonicity {n : ℕ} (X Y : Fin n → ℝ) (R0 ba ξ₁ ξ₂ : ℝ)
    (i j : Fin n) (hba0 : 0 < ba) (hba90 : ba < 90) (hR0 : 0 < R0)
    (hX : X i < X j) (hξ0 : 0 ≤ ξ₁) (hξ : ξ₁ < ξ₂) :
    wakeZ ξ₁ R0 ba < wakeZ ξ₂ R0 ba ∧
    |pairTheta X Y R0 ba ξ₂ i j| ≤ |pairTheta X Y R0 ba ξ₁ i j| ∧
    (Y j ≠ Y i → |pairTheta X Y R0 ba ξ₂ i j| < |pairTheta X Y R0 ba ξ₁ i j|) ∧
    get_cosine_factor_original X Y R0 ba ξ₁ i j ≤
      get_cosine_factor_original X Y R0 ba ξ₂ i j := by
  have hbpos : 0 < boundRad ba := boundRad_pos hba0
  have hblt : boundRad ba < Real.pi / 2 := boundRad_lt_pi_div_two hba90
  have hsin : 0 < Real.sin (boundRad ba) :=
    Real.sin_pos_of_pos_of_lt_pi hbpos (by linarith [Real.pi_pos])
  have hcos : 0 < Real.sin (Real.pi / 2 - boundRad ba) := by
    rw [Real.sin_pi_div_two_sub]
    exact Real.cos_pos_of_mem_Ioo ⟨by linarith [Real.pi_pos], hblt⟩
  have hc : 0 < R0 * Real.sin (Real.pi / 2 - boundRad ba) /
      Real.sin (boundRad ba) := div_pos (mul_pos hR0 hcos) hsin
  have hzeq : ∀ ξ : ℝ, wakeZ ξ R0 ba =
      ξ * (R0 * Real.sin (Real.pi / 2 - boundRad ba) /
        Real.sin (boundRad ba)) := by
    intro ξ
    unfold wakeZ
    ring
  have hzlt : wakeZ ξ₁ R0 ba < wakeZ ξ₂ R0 ba := by
    rw [hzeq ξ₁, hzeq ξ₂]
    exact mul_lt_mul_of_pos_right hξ hc
  have hz1 : 0 ≤ wakeZ ξ₁ R0 ba := by
    rw [hzeq ξ₁]
    exact mul_nonneg hξ0 (le_of_lt hc)
  have hd : 0 < X j - X i := sub_pos.mpr hX
  have hden1 : 0 < X j - X i + wakeZ ξ₁ R0 ba := by linarith
  have hden2 : 0 < X j - X i + wakeZ ξ₂ R0 ba := by linarith
  have hth1 : pairTheta X Y R0 ba ξ₁ i j =
      Real.arctan ((Y j - Y i) / (X j - X i + wakeZ ξ₁ R0 ba)) := by
    unfold pairTheta wakeTheta
    rw [if_neg (ne_of_gt hden1)]
  have hth2 : pairTheta X Y R0 ba ξ₂ i j =
      Real.arctan ((Y j - Y i) / (X j - X i + wakeZ ξ₂ R0 ba)) := by
    unfold pairTheta wakeTheta
    rw [if_neg (ne_of_gt hden2)]
  have habs1 : |pairTheta X Y R0 ba ξ₁ i j| =
      Real.arctan (|Y j - Y i| / (X j - X i + wakeZ ξ₁ R0 ba)) := by
    rw [hth1, abs_arctan_eq, abs_div, abs_of_pos hden1]
  have habs2 : |pairTheta X Y R0 ba ξ₂ i j| =
      Real.arctan (|Y j - Y i| / (X j - X i + wakeZ ξ₂ R0 ba)) := by
    rw [hth2, abs_arctan_eq, abs_div, abs_of_pos hden2]
  have hle : |pairTheta X Y R0 ba ξ₂ i j| ≤ |pairTheta X Y R0 ba ξ₁ i j| := by
    rw [habs1, habs2]
    exact Real.arctan_strictMono.monotone
      (div_le_div_of_nonneg_left (abs_nonneg _) hden1 (by linarith))
  have hstrict : Y j ≠ Y i →
      |pairTheta X Y R0 ba ξ₂ i j| < |pairTheta X Y R0 ba ξ₁ i j| := by
    intro hy
    have hdy : 0 < |Y j - Y i| := abs_pos.mpr (sub_ne_zero.mpr hy)
    rw [habs1, habs2]
    exact Real.arctan_strictMono
      (div_lt_div_of_pos_left hdy hden1 (by linarith))
  refine ⟨hzlt, hle, hstrict, ?_⟩
  have hguard1 : ¬ (X j - X i + wakeZ ξ₁ R0 ba = 0 ∧ Y j - Y i = 0) :=
    fun hc0 => (ne_of_gt hden1) hc0.1
  have hguard2 : ¬ (X j - X i + wakeZ ξ₂ R0 ba = 0 ∧ Y j - Y i = 0) :=
    fun hc0 => (ne_of_gt hden2) hc0.1
  unfold get_cosine_factor_original
  rw [if_pos hX, if_pos hX, if_neg hguard1, if_neg hguard2]
  by_cases hb1 : -(boundRad ba) < pairTheta X Y R0 ba ξ₁ i j ∧
      pairTheta X Y R0 ba ξ₁ i j < boundRad ba
  · have habs1lt : |pairTheta X Y R0 ba ξ₁ i j| < boundRad ba := abs_lt.mpr hb1
    have habs2lt : |pairTheta X Y R0 ba ξ₂ i j| < boundRad ba :=
      lt_of_le_of_lt hle habs1lt
    have hb2 : -(boundRad ba) < pairTheta X Y R0 ba ξ₂ i j ∧
        pairTheta X Y R0 ba ξ₂ i j < boundRad ba := abs_lt.mp habs2lt
    rw [if_pos hb1, if_pos hb2]
    have hq : 0 < Real.pi / boundRad ba := div_pos Real.pi_pos hbpos
    have hpi : Real.pi / boundRad ba * boundRad ba = Real.pi := by
      field_simp
    have hcle : Real.cos (Real.pi / boundRad ba * pairTheta X Y R0 ba ξ₁ i j) ≤
        Real.cos (Real.pi / boundRad ba * pairTheta X Y R0 ba ξ₂ i j) := by
      rw [← Real.cos_abs (Real.pi / boundRad ba * pairTheta X Y R0 ba ξ₁ i j),
        ← Real.cos_abs (Real.pi / boundRad ba * pairTheta X Y R0 ba ξ₂ i j)]
      apply Real.cos_le_cos_of_nonneg_of_le_pi
      · exact abs_nonneg _
      · rw [abs_mul, abs_of_pos hq]
        calc Real.pi / boundRad ba * |pairTheta X Y R0 ba ξ₁ i j| ≤
            Real.pi / boundRad ba * boundRad ba :=
              mul_le_mul_of_nonneg_left (le_of_lt habs1lt) (le_of_lt hq)
          _ = Real.pi := hpi
      · rw [abs_mul, abs_mul, abs_of_pos hq]
        exact mul_le_mul_of_nonneg_left hle (le_of_lt hq)
    linarith
  · rw [if_neg hb1]
    split_ifs with hb2
    · have := Real.neg_one_le_cos
        (Real.pi / boundRad ba * pairTheta X Y R0 ba ξ₂ i j)
      linarith
    · exact le_refl 0

/-- C5 amended witness: the monotonicity statement instantiated for a
pair with distinct y positions, bound angle 45 degrees, unit reference
radius and relaxation factors 0 and 1. -/
theorem C5_amended_witness :
    ((0 : ℝ) < 45 ∧ (45 : ℝ) < 90 ∧ (0 : ℝ) < 1 ∧
      (![0, 1] : Fin 2 → ℝ) 0 < (![0, 1] : Fin 2 → ℝ) 1 ∧
      (0 : ℝ) ≤ 0 ∧ (0 : ℝ) < 1) ∧
    (wakeZ 0 1 45 < wakeZ 1 1 45 ∧
      |pairTheta (![0, 1] : Fin 2 → ℝ) ![0, 1] 1 45 1 0 1| ≤
        |pairTheta (![0, 1] : Fin 2 → ℝ) ![0, 1] 1 45 0 0 1| ∧
      ((![0, 1] : Fin 2 → ℝ) 1 ≠ (![0, 1] : Fin 2 → ℝ) 0 →
        |pairTheta (![0, 1] : Fin 2 → ℝ) ![0, 1] 1 45 1 0 1| <
          |pairTheta (![0, 1] : Fin 2 → ℝ) ![0, 1] 1 45 0 0 1|) ∧
      get_cosine_factor_original (![0, 1] : Fin 2 → ℝ) ![0, 1] 1 45 0 0 1 ≤
        get_cosine_factor_original (![0, 1] : Fin 2 → ℝ) ![0, 1] 1 45 1 0 1) := by
  have hx : (![0, 1] : Fin 2 → ℝ) 0 < (![0, 1] : Fin 2 → ℝ) 1 := by
    norm_num
  exact ⟨⟨by norm_num, by norm_num, by norm_num, hx, le_refl 0, by norm_num⟩,
    C5_amended_monotonicity ![0, 1] ![0, 1] 1 45 0 1 0 1 (by norm_num)
      (by norm_num) (by norm_num) hx (le_refl 0) (by norm_num)⟩

/-- C10: when model_options is None or lacks a variant key the default
tag is the string Tophat, which matches none of the dispatch branches,
so the constructed group contains no deficit-law component at all. -/
theorem C10_default_variant_dispatches_nothing :
    jensenDispatch (resolveVariant none) = none := by
  rfl

end Jensen3D
